import Mathlib

/-!
Verification of the protoo server `Peer` class (src/server/lib/Peer.js).

The Peer is a request/response correlation engine over a duplex transport.
We embed it as an executable state machine: a `PeerState` records the
`closed` flag, the `_requestHandlers` map (as the list `table` of the ids
currently in the map, plus a persistent association `reqs` from ids to the
per-request promise/timer bookkeeping that handler closures capture), and
observation logs (frames written to the transport, close notifications
emitted, inbound requests surfaced, unmatched responses logged).

Promises follow the JavaScript runtime semantics: they settle at most once
(`settleResolve` / `settleReject` are no-ops on an already settled promise).
`ReqState.settleAttempts` counts the calls made to the promise's
`pResolve`/`pReject` capabilities, so that "the resolve/reject action fires
at most once" is a statable property separate from the promise's final state.

Events model the atomic event-loop turns that can act on a Peer: an API call
(`send`, `close`), a transport event (`message`, `close`), a timer firing,
and invocation of the accept/reject callbacks handed out for inbound requests.
-/

/-- Payload values carried in frames (JSON-like, as far as the claims need). -/
inductive Value where
  | vNull
  | vBool (b : Bool)
  | vNum (n : Int)
  | vStr (s : String)
  deriving DecidableEq, Repr

/-- The Error objects Peer.js uses to reject a request future:
`new Error('request timeout')`, `new Error('peer closed')`, and the remote
error `new Error(response.errorReason)` with `error.code = response.errorCode`. -/
inductive PeerError where
  | requestTimeout
  | peerClosed
  | remoteError (reason : String) (code : Value)
  deriving DecidableEq, Repr

/-- State of a JavaScript promise. The runtime guarantees a promise settles
at most once; a second resolve/reject call is a no-op. -/
inductive PromiseState where
  | pending
  | resolved (v : Value)
  | rejected (e : PeerError)
  deriving DecidableEq, Repr

/-- JS promise `resolve`: settles a pending promise, no-op otherwise. -/
def settleResolve (p : PromiseState) (v : Value) : PromiseState :=
  match p with
  | PromiseState.pending => PromiseState.resolved v
  | _ => p

/-- JS promise `reject`: settles a pending promise, no-op otherwise. -/
def settleReject (p : PromiseState) (e : PeerError) : PromiseState :=
  match p with
  | PromiseState.pending => PromiseState.rejected e
  | _ => p

/-- A request frame as built by the message contract:
`{ id, request: true, method, data }`. -/
structure RequestFrame where
  id : Nat
  request : Bool
  method : String
  data : Value
  deriving DecidableEq, Repr

/-- A response frame `{ id, response: true, ok, data, errorReason, errorCode }`. -/
structure ResponseFrame where
  id : Nat
  response : Bool
  ok : Bool
  data : Value
  errorReason : String
  errorCode : Value
  deriving DecidableEq, Repr

/-- A frame written to the transport. -/
inductive OutFrame where
  | req (f : RequestFrame)
  | res (f : ResponseFrame)
  deriving DecidableEq, Repr

/-- A decoded inbound message as the Peer reads it off the transport's
`message` event: the fields accessed are `response`, `request` (truthiness),
`id`, `ok`, `data`, `errorReason`, `errorCode`. -/
structure Message where
  response : Bool
  request : Bool
  id : Nat
  ok : Bool
  data : Value
  errorReason : String
  errorCode : Value
  deriving DecidableEq, Repr

/-- Per-request bookkeeping captured by the handler closures of one `send`:
the caller-facing promise, whether the `setTimeout` timer is still armed,
and how many times `pResolve`/`pReject` have been invoked for this request. -/
structure ReqState where
  promise : PromiseState
  timerArmed : Bool
  settleAttempts : Nat
  deriving DecidableEq, Repr

/-- The state of one Peer instance together with its observation logs. -/
structure PeerState where
  /-- `this._closed`. -/
  closed : Bool
  /-- next fresh request id handed out by the message contract. -/
  nextId : Nat
  /-- the ids currently present in `this._requestHandlers`, insertion order. -/
  table : List Nat
  /-- id-indexed per-request bookkeeping; persists after table removal
  because the closures keep referencing it. -/
  reqs : List (Nat × ReqState)
  /-- frames written via `this._transport.send(...)`. -/
  transportSends : List OutFrame
  /-- number of `this._transport.close()` calls. -/
  transportCloseCount : Nat
  /-- number of `this.emit('close')` notifications. -/
  closeEmits : Nat
  /-- inbound messages surfaced via `this.emit('request', ...)`. -/
  surfacedRequests : List Message
  /-- responses logged as `received response does not match any sent request`. -/
  unmatchedResponses : List Message
  deriving DecidableEq, Repr

/-- First-match association lookup (JS `Map.get`). -/
def alistGet : List (Nat × ReqState) → Nat → Option ReqState
  | [], _ => none
  | (k2, v) :: rest, k => if k2 = k then some v else alistGet rest k

/-- JS `Map.set`: replace in place if the key exists, else append. -/
def alistSet : List (Nat × ReqState) → Nat → ReqState → List (Nat × ReqState)
  | [], k, v => [(k, v)]
  | (k2, v2) :: rest, k, v =>
      if k2 = k then (k, v) :: rest else (k2, v2) :: alistSet rest k v

/-- Update the value at the first occurrence of a key, if present. -/
def alistUpdate : List (Nat × ReqState) → Nat → (ReqState → ReqState) → List (Nat × ReqState)
  | [], _, _ => []
  | (k2, v) :: rest, k, f =>
      if k2 = k then (k2, f v) :: rest else (k2, v) :: alistUpdate rest k f

/-- The keys of an association list. -/
def keysOf (l : List (Nat × ReqState)) : List Nat := l.map Prod.fst

/-- JS `Map.set` on the id set of the handlers map: ids are fresh in
practice, but keep `Map.set` semantics (no duplicate insertion). -/
def mapSet (t : List Nat) (id : Nat) : List Nat :=
  if id ∈ t then t else t ++ [id]

/-- Apply an update to one request's bookkeeping inside the peer state. -/
def updateReq (st : PeerState) (id : Nat) (f : ReqState → ReqState) : PeerState :=
  { st with reqs := alistUpdate st.reqs id f }

/-- The promise of request `id`, when that request exists. -/
def promiseOf (st : PeerState) (id : Nat) : Option PromiseState :=
  (alistGet st.reqs id).map ReqState.promise

/-- Whether request `id` exists and its timeout timer is still armed. -/
def reqTimerArmed (st : PeerState) (id : Nat) : Bool :=
  match alistGet st.reqs id with
  | some r => r.timerArmed
  | none => false

/-- Number of `pResolve`/`pReject` calls made for request `id`. -/
def reqSettleAttempts (st : PeerState) (id : Nat) : Nat :=
  match alistGet st.reqs id with
  | some r => r.settleAttempts
  | none => 0

/-- Peer.js line 8: `const REQUEST_TIMEOUT = 10000;` (milliseconds). -/
def REQUEST_TIMEOUT : Nat := 10000

/-- Modelled from the spec: `Message.requestFactory(method, data)`
(Message.js is not part of the given sources). Per §4.1 it generates a
fresh unique id — uniqueness is the only contract, so we use the Peer
state's counter — and wraps method/data with `request: true`. -/
def requestFactory (freshId : Nat) (method : String) (data : Value) : RequestFrame :=
  { id := freshId, request := true, method := method, data := data }

/-- Modelled from the spec: `Message.successResponseFactory(request, data)`
(Message.js is not part of the given sources). Per §4.1 it copies the
originating id and sets `ok = true`. -/
def successResponseFactory (request : Message) (data : Value) : ResponseFrame :=
  { id := request.id, response := true, ok := true, data := data,
    errorReason := "", errorCode := Value.vNull }

/-- Modelled from the spec: `Message.errorResponseFactory(request, errorReason, errorCode)`
(Message.js is not part of the given sources). Per §4.1 it copies the
originating id, sets `ok = false`, and carries reason/code. -/
def errorResponseFactory (request : Message) (reason : String) (code : Value) : ResponseFrame :=
  { id := request.id, response := true, ok := false, data := Value.vNull,
    errorReason := reason, errorCode := code }

/-- Effect of `clearTimeout(handler.timer); pResolve(data)` on one
request's bookkeeping. -/
def resolveAction (data : Value) (r : ReqState) : ReqState :=
  { r with timerArmed := false,
           promise := settleResolve r.promise data,
           settleAttempts := r.settleAttempts + 1 }

/-- Effect of `clearTimeout(handler.timer); pReject(error)` on one
request's bookkeeping. -/
def rejectAction (error : PeerError) (r : ReqState) : ReqState :=
  { r with timerArmed := false,
           promise := settleReject r.promise error,
           settleAttempts := r.settleAttempts + 1 }

/-- Effect of `pReject(new Error('request timeout'))` on one request's
bookkeeping (the fired timer is no longer armed). -/
def timeoutAction (r : ReqState) : ReqState :=
  { r with promise := settleReject r.promise PeerError.requestTimeout,
           settleAttempts := r.settleAttempts + 1 }

/-- Effect of `clearTimeout(handler.timer); pReject(new Error('peer closed'))`
on one request's bookkeeping. -/
def closeAction (r : ReqState) : ReqState :=
  { r with timerArmed := false,
           promise := settleReject r.promise PeerError.peerClosed,
           settleAttempts := r.settleAttempts + 1 }

/-- Peer.js lines 72-79, `handler.resolve`: delete the id from
`_requestHandlers` and return early if it was absent; else clear the timer
and call `pResolve(data)`. -/
def handlerResolve (st : PeerState) (id : Nat) (data : Value) : PeerState :=
  if id ∈ st.table then
    updateReq { st with table := st.table.erase id } id (resolveAction data)
  else st

/-- Peer.js lines 81-88, `handler.reject`: same removal gate, then clear the
timer and call `pReject(error)`. -/
def handlerReject (st : PeerState) (id : Nat) (error : PeerError) : PeerState :=
  if id ∈ st.table then
    updateReq { st with table := st.table.erase id } id (rejectAction error)
  else st

/-- Peer.js lines 90-96, the `setTimeout` callback: the timer has fired (so
it is no longer armed); delete the id from `_requestHandlers` and return
early if it was absent; else call `pReject(new Error('request timeout'))`. -/
def handlerTimerFire (st : PeerState) (id : Nat) : PeerState :=
  let st0 := updateReq st id (fun r => { r with timerArmed := false })
  if id ∈ st0.table then
    updateReq { st0 with table := st0.table.erase id } id timeoutAction
  else st0

/-- Peer.js lines 98-102, `handler.close`: clear the timer and call
`pReject(new Error('peer closed'))`. Note: no removal gate and no removal
from `_requestHandlers`. -/
def handlerClose (st : PeerState) (id : Nat) : PeerState :=
  updateReq st id closeAction

/-- Peer.js lines 64-108, `send(method, data)`: build the request frame via
the message contract, then synchronously run the promise executor, which
arms the timer and stores the handler in `_requestHandlers`. The source
neither checks `this._closed` nor calls `this._transport.send(request)`. -/
def Peer.send (st : PeerState) (method : String) (data : Value) : PeerState :=
  let request := requestFactory st.nextId method data
  { st with
      nextId := st.nextId + 1,
      table := mapSet st.table request.id,
      reqs := alistSet st.reqs request.id
        { promise := PromiseState.pending, timerArmed := true, settleAttempts := 0 } }

/-- Peer.js lines 45-62, `close()`: no-op when already closed; else set the
closed flag, close the transport, invoke `handler.close()` for every handler
in `_requestHandlers` (which does not empty the map), and emit `close`. -/
def Peer.close (st : PeerState) : PeerState :=
  if st.closed then st
  else
    let st1 := { st with closed := true,
                         transportCloseCount := st.transportCloseCount + 1 }
    let st2 := st1.table.foldl (fun s id => handlerClose s id) st1
    { st2 with closeEmits := st2.closeEmits + 1 }

/-- Peer.js lines 112-121, the transport `close` listener: no-op when the
peer is already closed; else set the closed flag and emit `close`. It does
not touch `_requestHandlers` and does not close the transport. -/
def Peer.transportCloseListener (st : PeerState) : PeerState :=
  if st.closed then st
  else { st with closed := true, closeEmits := st.closeEmits + 1 }

/-- Peer.js lines 136-157, `_handleResponse(response)`: look the id up in
`_requestHandlers`; if absent, log the unmatched response and return; else
branch on `response.ok` into `handler.resolve(response.data)` or
`handler.reject(error)` with the remote error built from
`errorReason`/`errorCode`. -/
def Peer.handleResponse (st : PeerState) (response : Message) : PeerState :=
  if response.id ∈ st.table then
    if response.ok = true then
      handlerResolve st response.id response.data
    else
      handlerReject st response.id
        (PeerError.remoteError response.errorReason response.errorCode)
  else
    { st with unmatchedResponses := st.unmatchedResponses ++ [response] }

/-- Peer.js lines 159-178, `_handleRequest(request)`: emit a `request`
notification carrying the frame and the accept/reject callbacks. -/
def Peer.handleRequest (st : PeerState) (request : Message) : PeerState :=
  { st with surfacedRequests := st.surfacedRequests ++ [request] }

/-- Peer.js lines 165-170, the `accept(data)` callback of an inbound
request: build a success response via the message contract and write it to
the transport. -/
def Peer.acceptInbound (st : PeerState) (request : Message) (data : Value) : PeerState :=
  { st with transportSends :=
      st.transportSends ++ [OutFrame.res (successResponseFactory request data)] }

/-- Peer.js lines 172-177, the `reject(errorReason, errorCode)` callback of
an inbound request: build an error response and write it to the transport. -/
def Peer.rejectInbound (st : PeerState) (request : Message) (reason : String)
    (code : Value) : PeerState :=
  { st with transportSends :=
      st.transportSends ++ [OutFrame.res (errorResponseFactory request reason code)] }

/-- Peer.js lines 123-133, the transport `message` listener: a truthy
`response` field dispatches to `_handleResponse`; otherwise a truthy
`request` field dispatches to `_handleRequest`; any other shape is ignored. -/
def Peer.transportMessageListener (st : PeerState) (m : Message) : PeerState :=
  if m.response = true then Peer.handleResponse st m
  else if m.request = true then Peer.handleRequest st m
  else st

/-- The atomic event-loop turns that can act on one Peer. -/
inductive Event where
  | send (method : String) (data : Value)
  | close
  | transportClose
  | transportMessage (m : Message)
  | timerFire (id : Nat)
  | acceptInbound (m : Message) (data : Value)
  | rejectInbound (m : Message) (reason : String) (code : Value)
  deriving DecidableEq, Repr

/-- One event-loop turn. A timer can fire only while it is armed; the
accept/reject callbacks exist only for messages that were surfaced as
inbound requests. -/
def applyEvent (st : PeerState) (e : Event) : PeerState :=
  match e with
  | Event.send method data => Peer.send st method data
  | Event.close => Peer.close st
  | Event.transportClose => Peer.transportCloseListener st
  | Event.transportMessage m => Peer.transportMessageListener st m
  | Event.timerFire id =>
      if reqTimerArmed st id = true then handlerTimerFire st id else st
  | Event.acceptInbound m data =>
      if m ∈ st.surfacedRequests then Peer.acceptInbound st m data else st
  | Event.rejectInbound m reason code =>
      if m ∈ st.surfacedRequests then Peer.rejectInbound st m reason code else st

/-- Run a sequence of event-loop turns. -/
def run (st : PeerState) (evs : List Event) : PeerState := evs.foldl applyEvent st

/-- A freshly constructed Peer (Peer.js lines 12-33): open, empty handler
map, nothing observed yet. -/
def initPeer : PeerState :=
  { closed := false, nextId := 0, table := [], reqs := [], transportSends := [],
    transportCloseCount := 0, closeEmits := 0, surfacedRequests := [],
    unmatchedResponses := [] }

/-- States reachable from a freshly constructed Peer. -/
def Reachable (st : PeerState) : Prop := ∃ evs, run initPeer evs = st

/-- Structural invariant of a Peer state: the id counter dominates all
issued ids, the handlers map only holds issued ids without duplicates, an
armed timer belongs to a request that is still pending and still in the
map, and while the peer is open every request in the map is pending. -/
structure StateInv (st : PeerState) : Prop where
  keys_lt : ∀ k, k ∈ keysOf st.reqs → k < st.nextId
  table_sub : ∀ k, k ∈ st.table → k ∈ keysOf st.reqs
  table_nodup : st.table.Nodup
  armed_pending : ∀ k r, alistGet st.reqs k = some r → r.timerArmed = true →
      r.promise = PromiseState.pending ∧ k ∈ st.table
  open_table : st.closed = false → ∀ k r, alistGet st.reqs k = some r →
      k ∈ st.table → r.promise = PromiseState.pending

/-- Settlement bookkeeping that holds as long as `close()` has never run:
a request still in the map has had no settlement call, and no request has
had more than one. -/
def NoCloseInv (st : PeerState) : Prop :=
  ∀ k r, alistGet st.reqs k = some r →
    (k ∈ st.table → r.settleAttempts = 0) ∧ r.settleAttempts ≤ 1

/-- A matching success response for request id 0. -/
def c2ResponseMsg : Message :=
  { response := true, request := false, id := 0, ok := true,
    data := Value.vStr "D", errorReason := "", errorCode := Value.vNull }

/-- Send, close the peer, then deliver a matching success response. -/
def c2CounterTrace : List Event :=
  [Event.send "echo" Value.vNull, Event.close, Event.transportMessage c2ResponseMsg]

/-- A run without `close()` in which the request settles by timeout. -/
def c2WitnessTrace : List Event :=
  [Event.send "a" Value.vNull, Event.timerFire 0]

/-- A late matching response delivered after the run above. -/
def c2WitnessTail : List Event :=
  [Event.transportMessage
    { response := true, request := false, id := 0, ok := true,
      data := Value.vStr "late", errorReason := "", errorCode := Value.vNull }]

/-- Close the peer, then call `send`. -/
def c3Trace : List Event := [Event.close, Event.send "ping" Value.vNull]

/-- Send, then let the transport signal closure. -/
def c4Trace : List Event := [Event.send "ping" Value.vNull, Event.transportClose]

/-- Send, close the peer (the entry stays in the map, already rejected). -/
def c6PreTrace : List Event := [Event.send "m6" Value.vNull, Event.close]

/-- A matching success response for the request of `c6PreTrace`. -/
def c6Msg : Message :=
  { response := true, request := false, id := 0, ok := true,
    data := Value.vStr "D", errorReason := "", errorCode := Value.vNull }

/-- An open peer with one outstanding request. -/
def c6WitnessTrace : List Event := [Event.send "w6" Value.vNull]

/-- A matching error response for the request of `c6WitnessTrace`. -/
def c6WitnessMsg : Message :=
  { response := true, request := false, id := 0, ok := false,
    data := Value.vNull, errorReason := "bad", errorCode := Value.vNum 7 }

/-- An open peer with one outstanding request. -/
def c7WitnessTrace : List Event := [Event.send "m7" Value.vNull]

/-- A matching response that arrives only after the timeout fired. -/
def c7WitnessMsg : Message :=
  { response := true, request := false, id := 0, ok := true,
    data := Value.vStr "late", errorReason := "", errorCode := Value.vNull }

/-- Send, close the peer, close it again. -/
def c8Trace : List Event :=
  [Event.send "m8" Value.vNull, Event.close, Event.close]

/-- A response whose id (5) matches no pending entry of `initPeer`. -/
def c9WitnessMsg : Message :=
  { response := true, request := false, id := 5, ok := true,
    data := Value.vStr "x", errorReason := "", errorCode := Value.vNull }

/-- A message whose `response` and `request` fields are both truthy. -/
def c10BothMsg : Message :=
  { response := true, request := true, id := 0, ok := true,
    data := Value.vStr "x", errorReason := "", errorCode := Value.vNull }

/-- A message with only the `request` field truthy. -/
def c10RequestMsg : Message :=
  { response := false, request := true, id := 1, ok := true,
    data := Value.vStr "y", errorReason := "", errorCode := Value.vNull }

/-- A message with neither field truthy. -/
def c10NeitherMsg : Message :=
  { response := false, request := false, id := 2, ok := true,
    data := Value.vStr "z", errorReason := "", errorCode := Value.vNull }

/-- An open peer with one outstanding request (id 0). -/
def c5WitnessTrace : List Event := [Event.send "m5" Value.vNull]

/-! ### Association-list lemmas -/

theorem alistGet_set_eq (l : List (Nat × ReqState)) (k : Nat) (v : ReqState) :
    alistGet (alistSet l k v) k = some v := by
  induction l with
  | nil => simp [alistSet, alistGet]
  | cons hd tl ih =>
    obtain ⟨k2, v2⟩ := hd
    by_cases h : k2 = k
    · simp [alistSet, alistGet, h]
    · simp [alistSet, alistGet, h, ih]

theorem alistGet_set_ne (l : List (Nat × ReqState)) (k q : Nat) (v : ReqState)
    (h : q ≠ k) : alistGet (alistSet l k v) q = alistGet l q := by
  have hkq : ¬ k = q := fun he => h he.symm
  induction l with
  | nil => simp [alistSet, alistGet, hkq]
  | cons hd tl ih =>
    obtain ⟨k2, v2⟩ := hd
    by_cases h2 : k2 = k
    · simp [alistSet, alistGet, h2, hkq]
    · simp [alistSet, alistGet, h2, ih]

theorem alistGet_update_eq (l : List (Nat × ReqState)) (k : Nat)
    (f : ReqState → ReqState) :
    alistGet (alistUpdate l k f) k = (alistGet l k).map f := by
  induction l with
  | nil => simp [alistUpdate, alistGet]
  | cons hd tl ih =>
    obtain ⟨k2, v2⟩ := hd
    by_cases h : k2 = k
    · simp [alistUpdate, alistGet, h]
    · simp [alistUpdate, alistGet, h, ih]

theorem alistGet_update_ne (l : List (Nat × ReqState)) (k q : Nat)
    (f : ReqState → ReqState) (h : q ≠ k) :
    alistGet (alistUpdate l k f) q = alistGet l q := by
  have hkq : ¬ k = q := fun he => h he.symm
  induction l with
  | nil => simp [alistUpdate, alistGet]
  | cons hd tl ih =>
    obtain ⟨k2, v2⟩ := hd
    by_cases h2 : k2 = k
    · simp [alistUpdate, alistGet, h2, hkq]
    · simp [alistUpdate, alistGet, h2, ih]

theorem keysOf_update (l : List (Nat × ReqState)) (k : Nat)
    (f : ReqState → ReqState) : keysOf (alistUpdate l k f) = keysOf l := by
  induction l with
  | nil => rfl
  | cons hd tl ih =>
    obtain ⟨k2, v2⟩ := hd
    by_cases h : k2 = k
    · simp [alistUpdate, keysOf, h]
    · simpa [alistUpdate, keysOf, h] using ih

theorem mem_keysOf_iff (l : List (Nat × ReqState)) (k : Nat) :
    k ∈ keysOf l ↔ ∃ r, alistGet l k = some r := by
  induction l with
  | nil => simp [keysOf, alistGet]
  | cons hd tl ih =>
    obtain ⟨k2, v2⟩ := hd
    by_cases h : k2 = k
    · subst h
      simp [keysOf, alistGet]
    · have h2 : ¬ k = k2 := fun he => h he.symm
      have hcons : k ∈ keysOf ((k2, v2) :: tl) ↔ k ∈ keysOf tl := by
        simp [keysOf, h2]
      rw [hcons, ih]
      have hget : alistGet ((k2, v2) :: tl) k = alistGet tl k := by
        simp [alistGet, h]
      rw [hget]

theorem keysOf_set_not_mem (l : List (Nat × ReqState)) (k : Nat) (v : ReqState)
    (h : k ∉ keysOf l) : keysOf (alistSet l k v) = keysOf l ++ [k] := by
  induction l with
  | nil => simp [alistSet, keysOf]
  | cons hd tl ih =>
    obtain ⟨k2, v2⟩ := hd
    have h' : ¬ (k = k2 ∨ k ∈ keysOf tl) := by
      intro hc
      apply h
      simpa [keysOf, List.mem_cons] using hc
    have hne : ¬ k2 = k := fun he => h' (Or.inl he.symm)
    have htl : k ∉ keysOf tl := fun hm => h' (Or.inr hm)
    calc keysOf (alistSet ((k2, v2) :: tl) k v)
        = keysOf ((k2, v2) :: alistSet tl k v) := by simp only [alistSet, if_neg hne]
      _ = k2 :: keysOf (alistSet tl k v) := rfl
      _ = k2 :: (keysOf tl ++ [k]) := by rw [ih htl]
      _ = keysOf ((k2, v2) :: tl) ++ [k] := rfl

/-! ### Field-preservation and fold lemmas -/

@[simp] theorem updateReq_closed (st : PeerState) (id : Nat) (f : ReqState → ReqState) :
    (updateReq st id f).closed = st.closed := rfl

@[simp] theorem updateReq_table (st : PeerState) (id : Nat) (f : ReqState → ReqState) :
    (updateReq st id f).table = st.table := rfl

@[simp] theorem updateReq_nextId (st : PeerState) (id : Nat) (f : ReqState → ReqState) :
    (updateReq st id f).nextId = st.nextId := rfl

@[simp] theorem updateReq_closeEmits (st : PeerState) (id : Nat) (f : ReqState → ReqState) :
    (updateReq st id f).closeEmits = st.closeEmits := rfl

@[simp] theorem updateReq_transportCloseCount (st : PeerState) (id : Nat)
    (f : ReqState → ReqState) :
    (updateReq st id f).transportCloseCount = st.transportCloseCount := rfl

@[simp] theorem updateReq_transportSends (st : PeerState) (id : Nat)
    (f : ReqState → ReqState) :
    (updateReq st id f).transportSends = st.transportSends := rfl

@[simp] theorem updateReq_surfacedRequests (st : PeerState) (id : Nat)
    (f : ReqState → ReqState) :
    (updateReq st id f).surfacedRequests = st.surfacedRequests := rfl

@[simp] theorem updateReq_unmatchedResponses (st : PeerState) (id : Nat)
    (f : ReqState → ReqState) :
    (updateReq st id f).unmatchedResponses = st.unmatchedResponses := rfl

@[simp] theorem updateReq_reqs (st : PeerState) (id : Nat) (f : ReqState → ReqState) :
    (updateReq st id f).reqs = alistUpdate st.reqs id f := rfl

theorem foldl_handlerClose_closed (l : List Nat) (st : PeerState) :
    (l.foldl (fun s id => handlerClose s id) st).closed = st.closed := by
  induction l generalizing st with
  | nil => rfl
  | cons hd tl ih => rw [List.foldl_cons, ih]; rfl

theorem foldl_handlerClose_table (l : List Nat) (st : PeerState) :
    (l.foldl (fun s id => handlerClose s id) st).table = st.table := by
  induction l generalizing st with
  | nil => rfl
  | cons hd tl ih => rw [List.foldl_cons, ih]; rfl

theorem foldl_handlerClose_nextId (l : List Nat) (st : PeerState) :
    (l.foldl (fun s id => handlerClose s id) st).nextId = st.nextId := by
  induction l generalizing st with
  | nil => rfl
  | cons hd tl ih => rw [List.foldl_cons, ih]; rfl

theorem foldl_handlerClose_closeEmits (l : List Nat) (st : PeerState) :
    (l.foldl (fun s id => handlerClose s id) st).closeEmits = st.closeEmits := by
  induction l generalizing st with
  | nil => rfl
  | cons hd tl ih => rw [List.foldl_cons, ih]; rfl

theorem foldl_handlerClose_transportCloseCount (l : List Nat) (st : PeerState) :
    (l.foldl (fun s id => handlerClose s id) st).transportCloseCount
      = st.transportCloseCount := by
  induction l generalizing st with
  | nil => rfl
  | cons hd tl ih => rw [List.foldl_cons, ih]; rfl

theorem foldl_handlerClose_transportSends (l : List Nat) (st : PeerState) :
    (l.foldl (fun s id => handlerClose s id) st).transportSends = st.transportSends := by
  induction l generalizing st with
  | nil => rfl
  | cons hd tl ih => rw [List.foldl_cons, ih]; rfl

theorem foldl_handlerClose_keys (l : List Nat) (st : PeerState) :
    keysOf (l.foldl (fun s id => handlerClose s id) st).reqs = keysOf st.reqs := by
  induction l generalizing st with
  | nil => rfl
  | cons hd tl ih => rw [List.foldl_cons, ih]; exact keysOf_update _ _ _

theorem foldl_handlerClose_get_not_mem (l : List Nat) (st : PeerState) (k : Nat)
    (h : k ∉ l) :
    alistGet (l.foldl (fun s id => handlerClose s id) st).reqs k
      = alistGet st.reqs k := by
  induction l generalizing st with
  | nil => rfl
  | cons hd tl ih =>
    rw [List.foldl_cons, ih _ (List.not_mem_of_not_mem_cons h)]
    exact alistGet_update_ne _ _ _ _ (List.ne_of_not_mem_cons h)

theorem foldl_handlerClose_get_mem (l : List Nat) (st : PeerState) (k : Nat)
    (hnd : l.Nodup) (hmem : k ∈ l) :
    alistGet (l.foldl (fun s id => handlerClose s id) st).reqs k
      = (alistGet st.reqs k).map closeAction := by
  induction l generalizing st with
  | nil => cases hmem
  | cons hd tl ih =>
    rw [List.foldl_cons]
    rcases List.mem_cons.mp hmem with he | hm
    · subst he
      have hk : k ∉ tl := (List.nodup_cons.mp hnd).1
      rw [foldl_handlerClose_get_not_mem tl _ k hk]
      exact alistGet_update_eq _ _ _
    · have hne : k ≠ hd := by
        intro he
        exact (List.nodup_cons.mp hnd).1 (he ▸ hm)
      rw [ih _ (List.nodup_cons.mp hnd).2 hm]
      have hc : alistGet (handlerClose st hd).reqs k = alistGet st.reqs k :=
        alistGet_update_ne _ _ _ _ hne
      rw [hc]

theorem Peer.close_of_closed (st : PeerState) (h : st.closed = true) :
    Peer.close st = st := by
  unfold Peer.close
  rw [h]
  simp

theorem Peer.close_closed (st : PeerState) (hopen : st.closed = false) :
    (Peer.close st).closed = true := by
  unfold Peer.close
  rw [hopen]
  simp [foldl_handlerClose_closed]

theorem Peer.close_table (st : PeerState) (hopen : st.closed = false) :
    (Peer.close st).table = st.table := by
  unfold Peer.close
  rw [hopen]
  simp [foldl_handlerClose_table]

theorem Peer.close_nextId (st : PeerState) (hopen : st.closed = false) :
    (Peer.close st).nextId = st.nextId := by
  unfold Peer.close
  rw [hopen]
  simp [foldl_handlerClose_nextId]

theorem Peer.close_closeEmits (st : PeerState) (hopen : st.closed = false) :
    (Peer.close st).closeEmits = st.closeEmits + 1 := by
  unfold Peer.close
  rw [hopen]
  simp [foldl_handlerClose_closeEmits]

theorem Peer.close_transportCloseCount (st : PeerState) (hopen : st.closed = false) :
    (Peer.close st).transportCloseCount = st.transportCloseCount + 1 := by
  unfold Peer.close
  rw [hopen]
  simp [foldl_handlerClose_transportCloseCount]

theorem Peer.close_keys (st : PeerState) (hopen : st.closed = false) :
    keysOf (Peer.close st).reqs = keysOf st.reqs := by
  unfold Peer.close
  rw [hopen]
  simp [foldl_handlerClose_keys]

theorem Peer.close_get_mem (st : PeerState) (hopen : st.closed = false) (k : Nat)
    (hmem : k ∈ st.table) (hnd : st.table.Nodup) :
    alistGet (Peer.close st).reqs k = (alistGet st.reqs k).map closeAction := by
  unfold Peer.close
  rw [hopen]
  simpa using foldl_handlerClose_get_mem st.table _ k hnd hmem

theorem Peer.close_get_not_mem (st : PeerState) (hopen : st.closed = false) (k : Nat)
    (hmem : k ∉ st.table) :
    alistGet (Peer.close st).reqs k = alistGet st.reqs k := by
  unfold Peer.close
  rw [hopen]
  simpa using foldl_handlerClose_get_not_mem st.table _ k hmem

theorem Peer.transportCloseListener_of_closed (st : PeerState) (h : st.closed = true) :
    Peer.transportCloseListener st = st := by
  unfold Peer.transportCloseListener
  rw [h]
  simp

theorem Peer.transportCloseListener_of_open (st : PeerState) (h : st.closed = false) :
    Peer.transportCloseListener st
      = { st with closed := true, closeEmits := st.closeEmits + 1 } := by
  unfold Peer.transportCloseListener
  rw [h]
  simp

theorem handleResponse_surfacedRequests (st : PeerState) (m : Message) :
    (Peer.handleResponse st m).surfacedRequests = st.surfacedRequests := by
  by_cases h1 : m.id ∈ st.table
  · by_cases h2 : m.ok = true
    · simp [Peer.handleResponse, handlerResolve, h1, h2]
    · simp [Peer.handleResponse, handlerReject, h1, h2]
  · simp [Peer.handleResponse, h1]

/-! ### Claim theorems -/

/-- C1 (code bug in the source): `Peer.send` registers the pending entry
under the fresh frame id and arms the timeout, but it never invokes the
transport's `send` — for every state the list of frames written to the
transport is unchanged by a `send` call. Evaluated at the failing input
`send("ping", null)` on a fresh open Peer: the entry is registered, the
timer armed, and nothing has been written to the transport. The claim (with
the spec) says the built request frame is written to the Transport. -/
theorem c1_send_never_writes_transport :
    (∀ (st : PeerState) (method : String) (data : Value),
        (Peer.send st method data).transportSends = st.transportSends)
    ∧ (Peer.send initPeer "ping" Value.vNull).table = [0]
    ∧ reqTimerArmed (Peer.send initPeer "ping" Value.vNull) 0 = true
    ∧ promiseOf (Peer.send initPeer "ping" Value.vNull) 0 = some PromiseState.pending
    ∧ (Peer.send initPeer "ping" Value.vNull).transportSends = [] :=
  ⟨fun _ _ _ => rfl, by decide, by decide, by decide, by decide⟩

/-- C2 (counterexample): after `send`, `close()`, and a matching success
response, the settlement actions of request 0 have fired twice — once
ungated from `handler.close` (which does not remove the entry from the
table) and once from `handler.resolve` (whose removal gate still succeeds).
Only the promise's first-settlement-wins semantics keeps the future at its
first outcome (`peer closed`). This refutes "the resolve/reject action
fires at most once, with successful removal acting as the fire-once gate". -/
theorem c2_counterexample :
    reqSettleAttempts (run initPeer c2CounterTrace) 0 = 2
    ∧ ¬ reqSettleAttempts (run initPeer c2CounterTrace) 0 ≤ 1
    ∧ promiseOf (run initPeer c2CounterTrace) 0
        = some (PromiseState.rejected PeerError.peerClosed) :=
  ⟨by decide, by decide, by decide⟩

/-- C3 (counterexample): call `close()` on a fresh Peer, then `send`. The
peer's closed flag is true, yet the returned future is still pending — it
was not synchronously rejected with a PeerClosed error — and a pending
entry was registered in the table. (Nothing is written to the transport,
but only because `send` never writes; see C1.) -/
theorem c3_counterexample :
    (run initPeer [Event.close]).closed = true
    ∧ promiseOf (run initPeer c3Trace) 0 = some PromiseState.pending
    ∧ (run initPeer c3Trace).table = [0]
    ∧ (run initPeer c3Trace).transportSends = [] :=
  ⟨by decide, by decide, by decide, by decide⟩

/-- C4 (counterexample): send a request, then let the transport signal
closure. The Peer sets `closed` and emits the close notification, but the
outstanding request is neither rejected nor removed: its promise is still
pending, its timer still armed, and its entry still in the table — the
transport-closure path does not force-reject pending requests as `close()`
does. -/
theorem c4_counterexample :
    (run initPeer c4Trace).closed = true
    ∧ (run initPeer c4Trace).closeEmits = 1
    ∧ promiseOf (run initPeer c4Trace) 0 = some PromiseState.pending
    ∧ reqTimerArmed (run initPeer c4Trace) 0 = true
    ∧ (run initPeer c4Trace).table = [0] :=
  ⟨by decide, by decide, by decide, by decide, by decide⟩

/-- C4 (amended): when the transport signals closure while the Peer is not
closed, the listener only sets the closed flag and emits the close
notification; every other component of the state — the pending table, the
request bookkeeping (promises, timers), the transport — is untouched. -/
theorem c4_transport_close_amended (st : PeerState) (hopen : st.closed = false) :
    Peer.transportCloseListener st
      = { st with closed := true, closeEmits := st.closeEmits + 1 } :=
  Peer.transportCloseListener_of_open st hopen

/-- C4 amended, evaluated on a Peer with one outstanding request. -/
theorem c4_transport_close_amended_witness :
    (run initPeer [Event.send "w4" Value.vNull]).closed = false
    ∧ Peer.transportCloseListener (run initPeer [Event.send "w4" Value.vNull])
        = { run initPeer [Event.send "w4" Value.vNull] with
            closed := true,
            closeEmits := (run initPeer [Event.send "w4" Value.vNull]).closeEmits + 1 } :=
  ⟨by decide, c4_transport_close_amended _ (by decide)⟩

/-- C8 (counterexample): send a request, then call `close()` twice. Exactly
one close notification is emitted, but the pending table is not empty
afterwards: `handler.close` rejects the future without deleting the entry,
so the entry for request 0 remains. This refutes "afterwards no pending
entries remain in the table". -/
theorem c8_counterexample :
    (run initPeer c8Trace).closeEmits = 1
    ∧ (run initPeer c8Trace).table = [0]
    ∧ (run initPeer c8Trace).table ≠ [] :=
  ⟨by decide, by decide, by decide⟩

/-- C8 (amended): for any two closure events (explicit `close()` or
transport-initiated closure) in either order on an open Peer, the second is
a literal no-op because `closed` is already true, and exactly one close
notification is emitted — but entries are not removed from the pending
table by either path: the table is unchanged. -/
theorem c8_idempotent_amended (st : PeerState) (e1 e2 : Event)
    (hopen : st.closed = false)
    (h1 : e1 = Event.close ∨ e1 = Event.transportClose)
    (h2 : e2 = Event.close ∨ e2 = Event.transportClose) :
    applyEvent (applyEvent st e1) e2 = applyEvent st e1
    ∧ (applyEvent st e1).closeEmits = st.closeEmits + 1
    ∧ (applyEvent st e1).table = st.table := by
  have key : ∀ s1 : PeerState, s1.closed = true → applyEvent s1 e2 = s1 := by
    intro s1 hc
    rcases h2 with he | he <;> subst he
    · exact Peer.close_of_closed s1 hc
    · exact Peer.transportCloseListener_of_closed s1 hc
  rcases h1 with he | he <;> subst he
  · exact ⟨key _ (Peer.close_closed st hopen), Peer.close_closeEmits st hopen,
      Peer.close_table st hopen⟩
  · rw [show applyEvent st Event.transportClose = Peer.transportCloseListener st from rfl,
        Peer.transportCloseListener_of_open st hopen]
    exact ⟨key _ rfl, rfl, rfl⟩

/-- C8 amended, evaluated: explicit close then transport closure on a Peer
with one outstanding request. -/
theorem c8_idempotent_amended_witness :
    (run initPeer [Event.send "w8" Value.vNull]).closed = false
    ∧ (applyEvent (applyEvent (run initPeer [Event.send "w8" Value.vNull]) Event.close)
          Event.transportClose
        = applyEvent (run initPeer [Event.send "w8" Value.vNull]) Event.close
      ∧ (applyEvent (run initPeer [Event.send "w8" Value.vNull]) Event.close).closeEmits
          = (run initPeer [Event.send "w8" Value.vNull]).closeEmits + 1
      ∧ (applyEvent (run initPeer [Event.send "w8" Value.vNull]) Event.close).table
          = (run initPeer [Event.send "w8" Value.vNull]).table) :=
  ⟨by decide, c8_idempotent_amended _ Event.close Event.transportClose (by decide)
      (Or.inl rfl) (Or.inr rfl)⟩

/-- C9: delivering a response whose id has no entry in the pending table is
a no-op at the Peer's interface: the message is appended to the
unmatched-response log and every other component of the state — closed
flag, pending table, request bookkeeping, transport writes, emitted
notifications — is unchanged; no future is settled, and nothing is thrown
(the listener is a total function). -/
theorem c9_unmatched_response_noop (st : PeerState) (m : Message)
    (hresp : m.response = true) (hmiss : m.id ∉ st.table) :
    Peer.transportMessageListener st m
      = { st with unmatchedResponses := st.unmatchedResponses ++ [m] } := by
  simp [Peer.transportMessageListener, hresp, Peer.handleResponse, hmiss]

/-- C9, evaluated: an unmatched response (id 5) delivered to a fresh Peer. -/
theorem c9_unmatched_response_noop_witness :
    c9WitnessMsg.response = true ∧ c9WitnessMsg.id ∉ initPeer.table
    ∧ Peer.transportMessageListener initPeer c9WitnessMsg
        = { initPeer with unmatchedResponses := [c9WitnessMsg] } :=
  ⟨rfl, by decide, by
    have h := c9_unmatched_response_noop initPeer c9WitnessMsg rfl (by decide)
    simpa using h⟩

/-- C10: for every decoded message delivered by the transport's `message`
event, the response check takes precedence: a message with a truthy
`response` field is dispatched to the response handler (even if its
`request` field is also truthy, nothing is surfaced as an inbound request);
a message is surfaced as an inbound request exactly when `response` is
falsy and `request` is truthy; all other shapes leave the state unchanged. -/
theorem c10_dispatch_precedence (st : PeerState) (m : Message) :
    (m.response = true → Peer.transportMessageListener st m = Peer.handleResponse st m)
    ∧ (m.response = false → m.request = true →
        Peer.transportMessageListener st m = Peer.handleRequest st m)
    ∧ (m.response = false → m.request = false →
        Peer.transportMessageListener st m = st)
    ∧ ((Peer.transportMessageListener st m).surfacedRequests
        = if m.response = false ∧ m.request = true
          then st.surfacedRequests ++ [m] else st.surfacedRequests) := by
  refine ⟨fun h => by simp [Peer.transportMessageListener, h],
          fun h1 h2 => by simp [Peer.transportMessageListener, h1, h2],
          fun h1 h2 => by simp [Peer.transportMessageListener, h1, h2],
          ?_⟩
  by_cases h : m.response = true
  · simp [Peer.transportMessageListener, h, handleResponse_surfacedRequests]
  · have hf : m.response = false := by simpa using h
    by_cases h2 : m.request = true
    · simp [Peer.transportMessageListener, hf, h2, Peer.handleRequest]
    · have hf2 : m.request = false := by simpa using h2
      simp [Peer.transportMessageListener, hf, hf2]

/-- C10, evaluated at the three message shapes: both fields truthy (handled
as a response, nothing surfaced), request-only (surfaced), neither
(ignored). -/
theorem c10_dispatch_precedence_witness :
    (c10BothMsg.response = true
      ∧ Peer.transportMessageListener initPeer c10BothMsg
          = Peer.handleResponse initPeer c10BothMsg
      ∧ (Peer.transportMessageListener initPeer c10BothMsg).surfacedRequests = [])
    ∧ (c10RequestMsg.response = false ∧ c10RequestMsg.request = true
      ∧ Peer.transportMessageListener initPeer c10RequestMsg
          = Peer.handleRequest initPeer c10RequestMsg)
    ∧ (c10NeitherMsg.response = false ∧ c10NeitherMsg.request = false
      ∧ Peer.transportMessageListener initPeer c10NeitherMsg = initPeer) :=
  ⟨⟨rfl, (c10_dispatch_precedence initPeer c10BothMsg).1 rfl, by
      rw [(c10_dispatch_precedence initPeer c10BothMsg).2.2.2]
      decide⟩,
   ⟨rfl, rfl, (c10_dispatch_precedence initPeer c10RequestMsg).2.1 rfl rfl⟩,
   ⟨rfl, rfl, (c10_dispatch_precedence initPeer c10NeitherMsg).2.2.1 rfl rfl⟩⟩

/-! ### The structural invariant is preserved by every event -/

theorem stateInv_init : StateInv initPeer := by
  constructor
  · intro k hk; cases hk
  · intro k hk; cases hk
  · exact List.nodup_nil
  · intro k r hget _; cases hget
  · intro _ k r hget _; cases hget

theorem stateInv_disarm (st : PeerState) (h : StateInv st) (id : Nat) :
    StateInv (updateReq st id (fun r => { r with timerArmed := false })) := by
  constructor
  · intro k hk
    exact h.keys_lt k (by simpa [updateReq, keysOf_update] using hk)
  · intro k hk
    have := h.table_sub k (by simpa [updateReq] using hk)
    simpa [updateReq, keysOf_update] using this
  · simpa [updateReq] using h.table_nodup
  · intro k r hget harm
    by_cases hk : k = id
    · subst hk
      rw [updateReq_reqs, alistGet_update_eq] at hget
      rcases Option.map_eq_some'.mp hget with ⟨r0, hr0, hrr⟩
      rw [← hrr] at harm
      simp at harm
    · rw [updateReq_reqs, alistGet_update_ne _ _ _ _ hk] at hget
      exact h.armed_pending k r hget harm
  · intro hcl k r hget hkt
    by_cases hk : k = id
    · subst hk
      rw [updateReq_reqs, alistGet_update_eq] at hget
      rcases Option.map_eq_some'.mp hget with ⟨r0, hr0, hrr⟩
      have hp := h.open_table hcl k r0 hr0 (by simpa [updateReq] using hkt)
      rw [← hrr]
      simpa using hp
    · rw [updateReq_reqs, alistGet_update_ne _ _ _ _ hk] at hget
      exact h.open_table hcl k r hget (by simpa [updateReq] using hkt)

theorem stateInv_removeAndUpdate (st : PeerState) (h : StateInv st) (id : Nat)
    (f : ReqState → ReqState)
    (hf : ∀ r, alistGet st.reqs id = some r → (f r).timerArmed = false) :
    StateInv (updateReq { st with table := st.table.erase id } id f) := by
  constructor
  · intro k hk
    exact h.keys_lt k (by simpa [updateReq, keysOf_update] using hk)
  · intro k hk
    have hk2 : k ∈ st.table :=
      List.erase_subset _ _ (by simpa [updateReq] using hk)
    have := h.table_sub k hk2
    simpa [updateReq, keysOf_update] using this
  · have := h.table_nodup.erase id
    simpa [updateReq] using this
  · intro k r hget harm
    by_cases hk : k = id
    · subst hk
      rw [updateReq_reqs] at hget
      have hget2 : alistGet (alistUpdate st.reqs k f) k = (alistGet st.reqs k).map f :=
        alistGet_update_eq _ _ _
      rw [hget2] at hget
      rcases Option.map_eq_some'.mp hget with ⟨r0, hr0, hrr⟩
      rw [← hrr] at harm
      rw [hf r0 hr0] at harm
      cases harm
    · rw [updateReq_reqs] at hget
      rw [alistGet_update_ne st.reqs id k f hk] at hget
      rcases h.armed_pending k r hget harm with ⟨hp, hmem⟩
      refine ⟨hp, ?_⟩
      have : k ∈ st.table.erase id := (List.mem_erase_of_ne hk).mpr hmem
      simpa [updateReq] using this
  · intro hcl k r hget hkt
    by_cases hk : k = id
    · subst hk
      have hkt2 : k ∈ st.table.erase k := by simpa [updateReq] using hkt
      exact absurd hkt2 h.table_nodup.not_mem_erase
    · rw [updateReq_reqs] at hget
      rw [alistGet_update_ne st.reqs id k f hk] at hget
      have hkt2 : k ∈ st.table :=
        List.erase_subset _ _ (by simpa [updateReq] using hkt)
      exact h.open_table hcl k r hget hkt2

theorem stateInv_send (st : PeerState) (h : StateInv st) (method : String)
    (data : Value) : StateInv (Peer.send st method data) := by
  have hfresh : st.nextId ∉ keysOf st.reqs := fun hm => lt_irrefl _ (h.keys_lt _ hm)
  have hfresh_table : st.nextId ∉ st.table := fun hm => hfresh (h.table_sub _ hm)
  have htable : (Peer.send st method data).table = st.table ++ [st.nextId] := by
    simp [Peer.send, requestFactory, mapSet, hfresh_table]
  have hkeys : keysOf (Peer.send st method data).reqs = keysOf st.reqs ++ [st.nextId] := by
    have : (Peer.send st method data).reqs
        = alistSet st.reqs st.nextId
            { promise := PromiseState.pending, timerArmed := true, settleAttempts := 0 } := by
      simp [Peer.send, requestFactory]
    rw [this]
    exact keysOf_set_not_mem _ _ _ hfresh
  have hget_new : alistGet (Peer.send st method data).reqs st.nextId
      = some { promise := PromiseState.pending, timerArmed := true, settleAttempts := 0 } :=
    alistGet_set_eq _ _ _
  have hget_old : ∀ k, k ≠ st.nextId →
      alistGet (Peer.send st method data).reqs k = alistGet st.reqs k := by
    intro k hk
    exact alistGet_set_ne _ _ _ _ hk
  have hnext : (Peer.send st method data).nextId = st.nextId + 1 := rfl
  have hclosed : (Peer.send st method data).closed = st.closed := rfl
  constructor
  · intro k hk
    rw [hkeys] at hk
    rw [hnext]
    rcases List.mem_append.mp hk with hk | hk
    · exact Nat.lt_succ_of_lt (h.keys_lt k hk)
    · rw [List.mem_singleton.mp hk]
      exact Nat.lt_succ_self _
  · intro k hk
    rw [htable] at hk
    rw [hkeys]
    rcases List.mem_append.mp hk with hk | hk
    · exact List.mem_append_left _ (h.table_sub k hk)
    · exact List.mem_append_right _ hk
  · rw [htable]
    exact h.table_nodup.append (List.nodup_singleton _)
      (List.disjoint_singleton.mpr hfresh_table)
  · intro k r hget harm
    by_cases hk : k = st.nextId
    · subst hk
      rw [hget_new] at hget
      refine ⟨?_, ?_⟩
      · cases hget; rfl
      · rw [htable]; exact List.mem_append_right _ (List.mem_singleton_self _)
    · rw [hget_old k hk] at hget
      rcases h.armed_pending k r hget harm with ⟨hp, hmem⟩
      exact ⟨hp, by rw [htable]; exact List.mem_append_left _ hmem⟩
  · intro hcl k r hget hkt
    rw [hclosed] at hcl
    by_cases hk : k = st.nextId
    · subst hk
      rw [hget_new] at hget
      cases hget; rfl
    · rw [hget_old k hk] at hget
      rw [htable] at hkt
      rcases List.mem_append.mp hkt with hkt | hkt
      · exact h.open_table hcl k r hget hkt
      · exact absurd (List.mem_singleton.mp hkt) hk

theorem stateInv_close (st : PeerState) (h : StateInv st) : StateInv (Peer.close st) := by
  by_cases hc : st.closed = true
  · rw [Peer.close_of_closed st hc]; exact h
  · have hopen : st.closed = false := by simpa using hc
    constructor
    · intro k hk
      rw [Peer.close_keys st hopen] at hk
      rw [Peer.close_nextId st hopen]
      exact h.keys_lt k hk
    · intro k hk
      rw [Peer.close_table st hopen] at hk
      rw [Peer.close_keys st hopen]
      exact h.table_sub k hk
    · rw [Peer.close_table st hopen]; exact h.table_nodup
    · intro k r hget harm
      by_cases hm : k ∈ st.table
      · rw [Peer.close_get_mem st hopen k hm h.table_nodup] at hget
        rcases Option.map_eq_some'.mp hget with ⟨r0, hr0, hrr⟩
        rw [← hrr] at harm
        simp [closeAction] at harm
      · rw [Peer.close_get_not_mem st hopen k hm] at hget
        rcases h.armed_pending k r hget harm with ⟨_, hmem⟩
        exact absurd hmem hm
    · intro hcl
      rw [Peer.close_closed st hopen] at hcl
      cases hcl

theorem stateInv_transportClose (st : PeerState) (h : StateInv st) :
    StateInv (Peer.transportCloseListener st) := by
  by_cases hc : st.closed = true
  · rw [Peer.transportCloseListener_of_closed st hc]; exact h
  · have hopen : st.closed = false := by simpa using hc
    rw [Peer.transportCloseListener_of_open st hopen]
    constructor
    · exact h.keys_lt
    · exact h.table_sub
    · exact h.table_nodup
    · intro k r hget harm
      exact h.armed_pending k r hget harm
    · intro hcl
      cases hcl

theorem stateInv_congr (st st2 : PeerState) (h : StateInv st)
    (hc : st2.closed = st.closed) (hn : st2.nextId = st.nextId)
    (ht : st2.table = st.table) (hr : st2.reqs = st.reqs) : StateInv st2 := by
  constructor
  · intro k hk
    rw [hn]
    exact h.keys_lt k (by rwa [hr] at hk)
  · intro k hk
    rw [hr]
    exact h.table_sub k (by rwa [ht] at hk)
  · rw [ht]
    exact h.table_nodup
  · intro k r hget harm
    rw [hr] at hget
    rcases h.armed_pending k r hget harm with ⟨hp, hmem⟩
    exact ⟨hp, by rwa [ht]⟩
  · intro hcl k r hget hkt
    rw [hc] at hcl
    rw [hr] at hget
    rw [ht] at hkt
    exact h.open_table hcl k r hget hkt

theorem stateInv_handlerResolve (st : PeerState) (h : StateInv st) (id : Nat)
    (data : Value) : StateInv (handlerResolve st id data) := by
  by_cases hm : id ∈ st.table
  · rw [show handlerResolve st id data
        = updateReq { st with table := st.table.erase id } id (resolveAction data) from by
        simp [handlerResolve, hm]]
    exact stateInv_removeAndUpdate st h id _ (fun r _ => by simp [resolveAction])
  · rw [show handlerResolve st id data = st from by simp [handlerResolve, hm]]
    exact h

theorem stateInv_handlerReject (st : PeerState) (h : StateInv st) (id : Nat)
    (error : PeerError) : StateInv (handlerReject st id error) := by
  by_cases hm : id ∈ st.table
  · rw [show handlerReject st id error
        = updateReq { st with table := st.table.erase id } id (rejectAction error) from by
        simp [handlerReject, hm]]
    exact stateInv_removeAndUpdate st h id _ (fun r _ => by simp [rejectAction])
  · rw [show handlerReject st id error = st from by simp [handlerReject, hm]]
    exact h

theorem stateInv_handlerTimerFire (st : PeerState) (h : StateInv st) (id : Nat) :
    StateInv (handlerTimerFire st id) := by
  have h0 := stateInv_disarm st h id
  by_cases hm : id ∈ (updateReq st id (fun r => { r with timerArmed := false })).table
  · have heq : handlerTimerFire st id
        = updateReq
            { updateReq st id (fun r => { r with timerArmed := false }) with
              table := (updateReq st id
                (fun r => { r with timerArmed := false })).table.erase id }
            id timeoutAction := by
      simp only [handlerTimerFire]
      rw [if_pos hm]
    rw [heq]
    apply stateInv_removeAndUpdate _ h0 id
    intro r hget
    rw [updateReq_reqs, alistGet_update_eq] at hget
    rcases Option.map_eq_some'.mp hget with ⟨r0, _, hrr⟩
    rw [← hrr]
    simp [timeoutAction]
  · have heq : handlerTimerFire st id
        = updateReq st id (fun r => { r with timerArmed := false }) := by
      simp only [handlerTimerFire]
      rw [if_neg hm]
    rw [heq]
    exact h0

theorem stateInv_handleResponse (st : PeerState) (h : StateInv st) (m : Message) :
    StateInv (Peer.handleResponse st m) := by
  by_cases h1 : m.id ∈ st.table
  · by_cases h2 : m.ok = true
    · rw [show Peer.handleResponse st m = handlerResolve st m.id m.data from by
        simp [Peer.handleResponse, h1, h2]]
      exact stateInv_handlerResolve st h m.id m.data
    · rw [show Peer.handleResponse st m
          = handlerReject st m.id (PeerError.remoteError m.errorReason m.errorCode) from by
        simp [Peer.handleResponse, h1, h2]]
      exact stateInv_handlerReject st h m.id _
  · rw [show Peer.handleResponse st m
        = { st with unmatchedResponses := st.unmatchedResponses ++ [m] } from by
      simp [Peer.handleResponse, h1]]
    exact stateInv_congr st _ h rfl rfl rfl rfl

theorem stateInv_applyEvent (st : PeerState) (h : StateInv st) (e : Event) :
    StateInv (applyEvent st e) := by
  cases e with
  | send method data => exact stateInv_send st h method data
  | close => exact stateInv_close st h
  | transportClose => exact stateInv_transportClose st h
  | transportMessage m =>
    by_cases h1 : m.response = true
    · rw [show applyEvent st (Event.transportMessage m) = Peer.handleResponse st m from by
        simp [applyEvent, Peer.transportMessageListener, h1]]
      exact stateInv_handleResponse st h m
    · by_cases h2 : m.request = true
      · rw [show applyEvent st (Event.transportMessage m) = Peer.handleRequest st m from by
          simp [applyEvent, Peer.transportMessageListener, h1, h2]]
        exact stateInv_congr st _ h rfl rfl rfl rfl
      · rw [show applyEvent st (Event.transportMessage m) = st from by
          simp [applyEvent, Peer.transportMessageListener, h1, h2]]
        exact h
  | timerFire id =>
    by_cases hg : reqTimerArmed st id = true
    · rw [show applyEvent st (Event.timerFire id) = handlerTimerFire st id from by
        simp [applyEvent, hg]]
      exact stateInv_handlerTimerFire st h id
    · rw [show applyEvent st (Event.timerFire id) = st from by simp [applyEvent, hg]]
      exact h
  | acceptInbound m data =>
    by_cases hg : m ∈ st.surfacedRequests
    · rw [show applyEvent st (Event.acceptInbound m data)
          = Peer.acceptInbound st m data from by simp [applyEvent, hg]]
      exact stateInv_congr st _ h rfl rfl rfl rfl
    · rw [show applyEvent st (Event.acceptInbound m data) = st from by
        simp [applyEvent, hg]]
      exact h
  | rejectInbound m reason code =>
    by_cases hg : m ∈ st.surfacedRequests
    · rw [show applyEvent st (Event.rejectInbound m reason code)
          = Peer.rejectInbound st m reason code from by simp [applyEvent, hg]]
      exact stateInv_congr st _ h rfl rfl rfl rfl
    · rw [show applyEvent st (Event.rejectInbound m reason code) = st from by
        simp [applyEvent, hg]]
      exact h

theorem stateInv_run_of (st : PeerState) (h : StateInv st) (evs : List Event) :
    StateInv (run st evs) := by
  induction evs generalizing st with
  | nil => exact h
  | cons e tl ih => exact ih _ (stateInv_applyEvent st h e)

theorem stateInv_run (evs : List Event) : StateInv (run initPeer evs) :=
  stateInv_run_of initPeer stateInv_init evs

/-! ### Pointwise effect of the handler actions on the bookkeeping -/

theorem settleResolve_of_settled (p : PromiseState) (v : Value)
    (h : p ≠ PromiseState.pending) : settleResolve p v = p := by
  cases p with
  | pending => exact absurd rfl h
  | resolved v2 => rfl
  | rejected e2 => rfl

theorem settleReject_of_settled (p : PromiseState) (e : PeerError)
    (h : p ≠ PromiseState.pending) : settleReject p e = p := by
  cases p with
  | pending => exact absurd rfl h
  | resolved v2 => rfl
  | rejected e2 => rfl

theorem handlerResolve_get_mem (st : PeerState) (id : Nat) (data : Value)
    (hm : id ∈ st.table) :
    alistGet (handlerResolve st id data).reqs id
      = (alistGet st.reqs id).map (resolveAction data) := by
  simp only [handlerResolve]
  rw [if_pos hm]
  exact alistGet_update_eq st.reqs id (resolveAction data)

theorem handlerResolve_get_ne (st : PeerState) (id k : Nat) (data : Value)
    (hk : k ≠ id) :
    alistGet (handlerResolve st id data).reqs k = alistGet st.reqs k := by
  simp only [handlerResolve]
  by_cases hm : id ∈ st.table
  · rw [if_pos hm]
    exact alistGet_update_ne st.reqs id k (resolveAction data) hk
  · rw [if_neg hm]

theorem handlerReject_get_mem (st : PeerState) (id : Nat) (error : PeerError)
    (hm : id ∈ st.table) :
    alistGet (handlerReject st id error).reqs id
      = (alistGet st.reqs id).map (rejectAction error) := by
  simp only [handlerReject]
  rw [if_pos hm]
  exact alistGet_update_eq st.reqs id (rejectAction error)

theorem handlerReject_get_ne (st : PeerState) (id k : Nat) (error : PeerError)
    (hk : k ≠ id) :
    alistGet (handlerReject st id error).reqs k = alistGet st.reqs k := by
  simp only [handlerReject]
  by_cases hm : id ∈ st.table
  · rw [if_pos hm]
    exact alistGet_update_ne st.reqs id k (rejectAction error) hk
  · rw [if_neg hm]

theorem handlerTimerFire_get_self_mem (st : PeerState) (id : Nat) (hm : id ∈ st.table) :
    alistGet (handlerTimerFire st id).reqs id
      = (alistGet st.reqs id).map
          (fun r => timeoutAction { r with timerArmed := false }) := by
  have hmm : id ∈ (updateReq st id (fun r => { r with timerArmed := false })).table := hm
  have heq : handlerTimerFire st id
      = updateReq { updateReq st id (fun r => { r with timerArmed := false }) with
          table := st.table.erase id } id timeoutAction := by
    simp only [handlerTimerFire]
    rw [if_pos hmm]
    rfl
  rw [heq]
  have h1 : alistGet
      (alistUpdate (alistUpdate st.reqs id (fun r => { r with timerArmed := false }))
        id timeoutAction) id
      = ((alistGet st.reqs id).map (fun r => { r with timerArmed := false })).map
          timeoutAction := by
    rw [alistGet_update_eq, alistGet_update_eq]
  have h2 : alistGet (updateReq { updateReq st id
        (fun r => { r with timerArmed := false }) with
        table := st.table.erase id } id timeoutAction).reqs id
      = ((alistGet st.reqs id).map (fun r => { r with timerArmed := false })).map
          timeoutAction := h1
  rw [h2, Option.map_map]
  rfl

theorem handlerTimerFire_get_ne (st : PeerState) (id k : Nat) (hk : k ≠ id) :
    alistGet (handlerTimerFire st id).reqs k = alistGet st.reqs k := by
  by_cases hm : id ∈ st.table
  · have hmm : id ∈ (updateReq st id (fun r => { r with timerArmed := false })).table := hm
    have heq : handlerTimerFire st id
        = updateReq { updateReq st id (fun r => { r with timerArmed := false }) with
            table := st.table.erase id } id timeoutAction := by
      simp only [handlerTimerFire]
      rw [if_pos hmm]
      rfl
    rw [heq]
    have h1 : alistGet
        (alistUpdate (alistUpdate st.reqs id (fun r => { r with timerArmed := false }))
          id timeoutAction) k = alistGet st.reqs k := by
      rw [alistGet_update_ne _ _ _ _ hk, alistGet_update_ne _ _ _ _ hk]
    exact h1
  · have hmm : id ∉ (updateReq st id (fun r => { r with timerArmed := false })).table := hm
    have heq : handlerTimerFire st id
        = updateReq st id (fun r => { r with timerArmed := false }) := by
      simp only [handlerTimerFire]
      rw [if_neg hmm]
    rw [heq]
    exact alistGet_update_ne st.reqs id k _ hk

theorem handlerTimerFire_table_mem (st : PeerState) (id : Nat) (hm : id ∈ st.table) :
    (handlerTimerFire st id).table = st.table.erase id := by
  have hmm : id ∈ (updateReq st id (fun r => { r with timerArmed := false })).table := hm
  simp only [handlerTimerFire]
  rw [if_pos hmm]
  rfl

theorem applyEvent_timerFire_of_armed (st : PeerState) (id : Nat)
    (hg : reqTimerArmed st id = true) :
    applyEvent st (Event.timerFire id) = handlerTimerFire st id := by
  simp [applyEvent, hg]

theorem unmatched_response_noop (st : PeerState) (m : Message)
    (hresp : m.response = true) (hmiss : m.id ∉ st.table) :
    Peer.transportMessageListener st m
      = { st with unmatchedResponses := st.unmatchedResponses ++ [m] } := by
  simp [Peer.transportMessageListener, hresp, Peer.handleResponse, hmiss]

theorem timerFire_rejects (st : PeerState) (hinv : StateInv st) (id : Nat)
    (r : ReqState) (hr : alistGet st.reqs id = some r) (harm : r.timerArmed = true) :
    promiseOf (applyEvent st (Event.timerFire id)) id
        = some (PromiseState.rejected PeerError.requestTimeout)
    ∧ (applyEvent st (Event.timerFire id)).table = st.table.erase id := by
  have hg : reqTimerArmed st id = true := by
    unfold reqTimerArmed
    rw [hr]
    exact harm
  have hpend := (hinv.armed_pending id r hr harm).1
  have hmem := (hinv.armed_pending id r hr harm).2
  rw [applyEvent_timerFire_of_armed st id hg]
  constructor
  · unfold promiseOf
    rw [handlerTimerFire_get_self_mem st id hmem, hr]
    simp [timeoutAction, hpend, settleReject]
  · exact handlerTimerFire_table_mem st id hmem

/-- C5: calling `close()` on an open Peer sets the closed flag, closes the
Transport (exactly one more transport-close call), emits exactly one close
notification, and for every id in the pending table at call time invokes
that entry's close action: the timer is cleared and the future rejected
with the PeerClosed error. -/
theorem c5_close_rejects_all_pending (evs : List Event)
    (hopen : (run initPeer evs).closed = false) :
    (Peer.close (run initPeer evs)).closed = true
    ∧ (Peer.close (run initPeer evs)).transportCloseCount
        = (run initPeer evs).transportCloseCount + 1
    ∧ (Peer.close (run initPeer evs)).closeEmits = (run initPeer evs).closeEmits + 1
    ∧ ∀ id, id ∈ (run initPeer evs).table →
        promiseOf (Peer.close (run initPeer evs)) id
            = some (PromiseState.rejected PeerError.peerClosed)
        ∧ reqTimerArmed (Peer.close (run initPeer evs)) id = false := by
  have hinv := stateInv_run evs
  refine ⟨Peer.close_closed _ hopen, Peer.close_transportCloseCount _ hopen,
    Peer.close_closeEmits _ hopen, ?_⟩
  intro id hid
  obtain ⟨r, hr⟩ := (mem_keysOf_iff _ _).mp (hinv.table_sub id hid)
  have hpend : r.promise = PromiseState.pending := hinv.open_table hopen id r hr hid
  have hget := Peer.close_get_mem _ hopen id hid hinv.table_nodup
  rw [hr] at hget
  constructor
  · unfold promiseOf
    rw [hget]
    simp [closeAction, hpend, settleReject]
  · unfold reqTimerArmed
    rw [hget]
    simp [closeAction]

/-- C5, evaluated on a Peer with one outstanding request (id 0). -/
theorem c5_close_rejects_all_pending_witness :
    (run initPeer c5WitnessTrace).closed = false
    ∧ promiseOf (Peer.close (run initPeer c5WitnessTrace)) 0
        = some (PromiseState.rejected PeerError.peerClosed)
    ∧ reqTimerArmed (Peer.close (run initPeer c5WitnessTrace)) 0 = false
    ∧ (Peer.close (run initPeer c5WitnessTrace)).closeEmits
        = (run initPeer c5WitnessTrace).closeEmits + 1 := by
  have h := c5_close_rejects_all_pending c5WitnessTrace (by decide)
  exact ⟨by decide, (h.2.2.2 0 (by decide)).1, (h.2.2.2 0 (by decide)).2, h.2.2.1⟩

/-- C6 (counterexample): send a request, call `close()` (which rejects the
future with PeerClosed but leaves the entry in the table), then deliver a
matching success response. The id still matches a pending-table entry and
`ok` is true, yet the future does not resolve with the frame's data: it
stays rejected with PeerClosed, because a promise settles only once. -/
theorem c6_counterexample :
    0 ∈ (run initPeer c6PreTrace).table
    ∧ c6Msg.response = true ∧ c6Msg.id = 0 ∧ c6Msg.ok = true
    ∧ promiseOf (run initPeer (c6PreTrace ++ [Event.transportMessage c6Msg])) 0
        = some (PromiseState.rejected PeerError.peerClosed)
    ∧ promiseOf (run initPeer (c6PreTrace ++ [Event.transportMessage c6Msg])) 0
        ≠ some (PromiseState.resolved c6Msg.data) :=
  ⟨by decide, rfl, rfl, rfl, by decide, by decide⟩

/-- C6 (amended): for every inbound ResponseFrame whose id matches a
pending entry of an **open** Peer: if `ok` is true the corresponding future
resolves with the frame's data, and if `ok` is false it rejects with the
remote error built from the frame's `errorReason` and `errorCode`. (On a
closed Peer a stale table entry's future has already been rejected with
PeerClosed and does not settle again.) -/
theorem c6_matched_response_amended (evs : List Event) (m : Message)
    (hopen : (run initPeer evs).closed = false)
    (hresp : m.response = true)
    (hmem : m.id ∈ (run initPeer evs).table) :
    promiseOf (applyEvent (run initPeer evs) (Event.transportMessage m)) m.id
      = some (if m.ok = true then PromiseState.resolved m.data
         else PromiseState.rejected
           (PeerError.remoteError m.errorReason m.errorCode)) := by
  have hinv := stateInv_run evs
  obtain ⟨r, hr⟩ := (mem_keysOf_iff _ _).mp (hinv.table_sub _ hmem)
  have hpend : r.promise = PromiseState.pending := hinv.open_table hopen _ r hr hmem
  have hl : applyEvent (run initPeer evs) (Event.transportMessage m)
      = Peer.handleResponse (run initPeer evs) m := by
    simp [applyEvent, Peer.transportMessageListener, hresp]
  rw [hl]
  by_cases hok : m.ok = true
  · rw [show Peer.handleResponse (run initPeer evs) m
        = handlerResolve (run initPeer evs) m.id m.data from by
      simp [Peer.handleResponse, hmem, hok]]
    unfold promiseOf
    rw [handlerResolve_get_mem _ _ _ hmem, hr]
    simp [resolveAction, hpend, settleResolve, hok]
  · rw [show Peer.handleResponse (run initPeer evs) m
        = handlerReject (run initPeer evs) m.id
            (PeerError.remoteError m.errorReason m.errorCode) from by
      simp [Peer.handleResponse, hmem, hok]]
    unfold promiseOf
    rw [handlerReject_get_mem _ _ _ hmem, hr]
    simp [rejectAction, hpend, settleReject, hok]

/-- C6 amended, evaluated: a matched error response on an open Peer rejects
the future with the remote error. -/
theorem c6_matched_response_amended_witness :
    ((run initPeer c6WitnessTrace).closed = false
      ∧ c6WitnessMsg.response = true
      ∧ c6WitnessMsg.id ∈ (run initPeer c6WitnessTrace).table)
    ∧ promiseOf (applyEvent (run initPeer c6WitnessTrace)
          (Event.transportMessage c6WitnessMsg)) c6WitnessMsg.id
        = some (if c6WitnessMsg.ok = true then PromiseState.resolved c6WitnessMsg.data
           else PromiseState.rejected (PeerError.remoteError c6WitnessMsg.errorReason
             c6WitnessMsg.errorCode)) :=
  ⟨⟨by decide, rfl, by decide⟩,
    c6_matched_response_amended c6WitnessTrace c6WitnessMsg (by decide) rfl (by decide)⟩

/-- C7: the request timeout is the fixed 10000 ms constant; when the timer
of a still-armed (hence still-pending) request fires, the future rejects
with the request-timeout error and the entry is removed from the pending
table, and any matching response delivered afterwards is treated as an
unmatched response: it is only logged, the whole state is otherwise
unchanged, and the future is never settled a second time. -/
theorem c7_timeout_then_late_response_noop (evs : List Event) (id : Nat)
    (m : Message) (harmed : reqTimerArmed (run initPeer evs) id = true)
    (hresp : m.response = true) (hid : m.id = id) :
    REQUEST_TIMEOUT = 10000
    ∧ promiseOf (applyEvent (run initPeer evs) (Event.timerFire id)) id
        = some (PromiseState.rejected PeerError.requestTimeout)
    ∧ id ∉ (applyEvent (run initPeer evs) (Event.timerFire id)).table
    ∧ applyEvent (applyEvent (run initPeer evs) (Event.timerFire id))
          (Event.transportMessage m)
        = { applyEvent (run initPeer evs) (Event.timerFire id) with
            unmatchedResponses :=
              (applyEvent (run initPeer evs) (Event.timerFire id)).unmatchedResponses
                ++ [m] } := by
  have hinv := stateInv_run evs
  have hg : ∃ r, alistGet (run initPeer evs).reqs id = some r ∧ r.timerArmed = true := by
    unfold reqTimerArmed at harmed
    cases hc : alistGet (run initPeer evs).reqs id with
    | none => rw [hc] at harmed; cases harmed
    | some r => rw [hc] at harmed; exact ⟨r, rfl, harmed⟩
  obtain ⟨r, hr, harm⟩ := hg
  have hfire := timerFire_rejects (run initPeer evs) hinv id r hr harm
  have hmiss : m.id ∉ (applyEvent (run initPeer evs) (Event.timerFire id)).table := by
    rw [hid, hfire.2]
    exact hinv.table_nodup.not_mem_erase
  refine ⟨rfl, hfire.1, by rw [hfire.2]; exact hinv.table_nodup.not_mem_erase, ?_⟩
  exact unmatched_response_noop _ m hresp hmiss

/-- C7, evaluated: the armed request of an open Peer times out and a late
matching response is only logged. -/
theorem c7_timeout_then_late_response_noop_witness :
    (reqTimerArmed (run initPeer c7WitnessTrace) 0 = true
     ∧ c7WitnessMsg.response = true ∧ c7WitnessMsg.id = 0)
    ∧ (REQUEST_TIMEOUT = 10000
       ∧ promiseOf (applyEvent (run initPeer c7WitnessTrace) (Event.timerFire 0)) 0
           = some (PromiseState.rejected PeerError.requestTimeout)
       ∧ 0 ∉ (applyEvent (run initPeer c7WitnessTrace) (Event.timerFire 0)).table
       ∧ applyEvent (applyEvent (run initPeer c7WitnessTrace) (Event.timerFire 0))
             (Event.transportMessage c7WitnessMsg)
           = { applyEvent (run initPeer c7WitnessTrace) (Event.timerFire 0) with
               unmatchedResponses :=
                 (applyEvent (run initPeer c7WitnessTrace)
                   (Event.timerFire 0)).unmatchedResponses ++ [c7WitnessMsg] }) :=
  ⟨⟨by decide, rfl, rfl⟩,
   c7_timeout_then_late_response_noop c7WitnessTrace 0 c7WitnessMsg (by decide) rfl rfl⟩

/-- C3 (amended): a `send` on a closed Peer behaves exactly like a send on
an open Peer — the source never checks the closed flag. The returned future
stays pending (it is not synchronously rejected with a PeerClosed error), a
pending entry with an armed timer is registered under the fresh id, nothing
is written to the transport (as for every send, see C1), and the future
only settles when the timeout later fires, rejecting with the
request-timeout error (not PeerClosed). -/
theorem c3_send_on_closed_amended (evs : List Event) (method : String) (data : Value)
    (hclosed : (run initPeer evs).closed = true) :
    promiseOf (Peer.send (run initPeer evs) method data) (run initPeer evs).nextId
        = some PromiseState.pending
    ∧ reqTimerArmed (Peer.send (run initPeer evs) method data)
        (run initPeer evs).nextId = true
    ∧ (run initPeer evs).nextId ∈ (Peer.send (run initPeer evs) method data).table
    ∧ (Peer.send (run initPeer evs) method data).transportSends
        = (run initPeer evs).transportSends
    ∧ promiseOf (applyEvent (Peer.send (run initPeer evs) method data)
          (Event.timerFire (run initPeer evs).nextId)) (run initPeer evs).nextId
        = some (PromiseState.rejected PeerError.requestTimeout) := by
  have hinv := stateInv_run evs
  have hinv2 := stateInv_send (run initPeer evs) hinv method data
  have hfresh : (run initPeer evs).nextId ∉ keysOf (run initPeer evs).reqs :=
    fun hm => lt_irrefl _ (hinv.keys_lt _ hm)
  have hfresh_table : (run initPeer evs).nextId ∉ (run initPeer evs).table :=
    fun hm => hfresh (hinv.table_sub _ hm)
  have hget_new : alistGet (Peer.send (run initPeer evs) method data).reqs
      (run initPeer evs).nextId
      = some { promise := PromiseState.pending, timerArmed := true, settleAttempts := 0 } :=
    alistGet_set_eq _ _ _
  have htable : (Peer.send (run initPeer evs) method data).table
      = (run initPeer evs).table ++ [(run initPeer evs).nextId] := by
    simp [Peer.send, requestFactory, mapSet, hfresh_table]
  refine ⟨?_, ?_, ?_, rfl, ?_⟩
  · unfold promiseOf
    rw [hget_new]
    rfl
  · unfold reqTimerArmed
    rw [hget_new]
  · rw [htable]
    exact List.mem_append_right _ (List.mem_singleton_self _)
  · exact (timerFire_rejects _ hinv2 _ _ hget_new rfl).1

/-- C3 amended, evaluated: send on a freshly closed Peer. -/
theorem c3_send_on_closed_amended_witness :
    (run initPeer [Event.close]).closed = true
    ∧ (promiseOf (Peer.send (run initPeer [Event.close]) "ping" Value.vNull)
          (run initPeer [Event.close]).nextId = some PromiseState.pending
      ∧ reqTimerArmed (Peer.send (run initPeer [Event.close]) "ping" Value.vNull)
          (run initPeer [Event.close]).nextId = true
      ∧ (run initPeer [Event.close]).nextId
          ∈ (Peer.send (run initPeer [Event.close]) "ping" Value.vNull).table
      ∧ (Peer.send (run initPeer [Event.close]) "ping" Value.vNull).transportSends
          = (run initPeer [Event.close]).transportSends
      ∧ promiseOf (applyEvent (Peer.send (run initPeer [Event.close]) "ping" Value.vNull)
            (Event.timerFire (run initPeer [Event.close]).nextId))
            (run initPeer [Event.close]).nextId
          = some (PromiseState.rejected PeerError.requestTimeout)) :=
  ⟨by decide, c3_send_on_closed_amended [Event.close] "ping" Value.vNull (by decide)⟩

/-! ### Settlement bookkeeping for close-free runs, and promise stability -/

theorem noCloseInv_init : NoCloseInv initPeer := by
  intro k r hget
  cases hget

theorem noCloseInv_disarm (st : PeerState) (hnc : NoCloseInv st) (id : Nat) :
    NoCloseInv (updateReq st id (fun r => { r with timerArmed := false })) := by
  intro k r hget
  by_cases hk : k = id
  · subst hk
    rw [updateReq_reqs, alistGet_update_eq] at hget
    rcases Option.map_eq_some'.mp hget with ⟨r0, hr0, hrr⟩
    rcases hnc k r0 hr0 with ⟨h1, h2⟩
    rw [← hrr]
    exact ⟨fun hkt => h1 hkt, h2⟩
  · rw [updateReq_reqs, alistGet_update_ne _ _ _ _ hk] at hget
    rcases hnc k r hget with ⟨h1, h2⟩
    exact ⟨fun hkt => h1 hkt, h2⟩

theorem noCloseInv_removeAndUpdate (st : PeerState) (hnc : NoCloseInv st) (id : Nat)
    (f : ReqState → ReqState)
    (hf : ∀ r, (f r).settleAttempts = r.settleAttempts + 1)
    (hnd : st.table.Nodup) (hmm : id ∈ st.table) :
    NoCloseInv (updateReq { st with table := st.table.erase id } id f) := by
  intro k r hget
  by_cases hk : k = id
  · subst hk
    have hget2 : alistGet (alistUpdate st.reqs k f) k = some r := hget
    rw [alistGet_update_eq] at hget2
    rcases Option.map_eq_some'.mp hget2 with ⟨r0, hr0, hrr⟩
    have h0 : r0.settleAttempts = 0 := (hnc k r0 hr0).1 hmm
    constructor
    · intro hkt
      have hkt2 : k ∈ st.table.erase k := hkt
      exact absurd hkt2 hnd.not_mem_erase
    · rw [← hrr, hf r0, h0]
  · have hget2 : alistGet (alistUpdate st.reqs id f) k = some r := hget
    rw [alistGet_update_ne _ _ _ _ hk] at hget2
    rcases hnc k r hget2 with ⟨h1, h2⟩
    constructor
    · intro hkt
      have hkt2 : k ∈ st.table.erase id := hkt
      exact h1 (List.erase_subset _ _ hkt2)
    · exact h2

theorem noCloseInv_applyEvent (st : PeerState) (hinv : StateInv st)
    (hnc : NoCloseInv st) (e : Event) (he : e ≠ Event.close) :
    NoCloseInv (applyEvent st e) := by
  have hfresh_table : st.nextId ∉ st.table :=
    fun hm => lt_irrefl _ (hinv.keys_lt _ (hinv.table_sub _ hm))
  cases e with
  | close => exact absurd rfl he
  | send method data =>
    intro k r hget
    by_cases hk : k = st.nextId
    · have hnew : alistGet (Peer.send st method data).reqs st.nextId
          = some { promise := PromiseState.pending, timerArmed := true,
                   settleAttempts := 0 } :=
        alistGet_set_eq _ _ _
      have hget2 : alistGet (Peer.send st method data).reqs k = some r := hget
      rw [hk, hnew] at hget2
      cases hget2
      exact ⟨fun _ => rfl, Nat.zero_le 1⟩
    · have hold : alistGet (Peer.send st method data).reqs k = alistGet st.reqs k :=
        alistGet_set_ne _ _ _ _ hk
      have hget2 : alistGet (Peer.send st method data).reqs k = some r := hget
      rw [hold] at hget2
      rcases hnc k r hget2 with ⟨h1, h2⟩
      refine ⟨?_, h2⟩
      intro hkt
      have htab : (Peer.send st method data).table = st.table ++ [st.nextId] := by
        simp [Peer.send, requestFactory, mapSet, hfresh_table]
      have hkt2 : k ∈ (Peer.send st method data).table := hkt
      rw [htab] at hkt2
      rcases List.mem_append.mp hkt2 with h | h
      · exact h1 h
      · exact absurd (List.mem_singleton.mp h) hk
  | transportClose =>
    have hreqs : (Peer.transportCloseListener st).reqs = st.reqs := by
      unfold Peer.transportCloseListener
      split <;> rfl
    have htab : (Peer.transportCloseListener st).table = st.table := by
      unfold Peer.transportCloseListener
      split <;> rfl
    intro k r hget
    have hget2 : alistGet (Peer.transportCloseListener st).reqs k = some r := hget
    rw [hreqs] at hget2
    rcases hnc k r hget2 with ⟨h1, h2⟩
    refine ⟨?_, h2⟩
    intro hkt
    have hkt2 : k ∈ (Peer.transportCloseListener st).table := hkt
    rw [htab] at hkt2
    exact h1 hkt2
  | transportMessage m =>
    by_cases h1 : m.response = true
    · by_cases hmem : m.id ∈ st.table
      · by_cases hok : m.ok = true
        · have heq : applyEvent st (Event.transportMessage m)
              = updateReq { st with table := st.table.erase m.id } m.id
                  (resolveAction m.data) := by
            simp [applyEvent, Peer.transportMessageListener, h1, Peer.handleResponse,
              hmem, hok, handlerResolve]
          rw [heq]
          exact noCloseInv_removeAndUpdate st hnc m.id _ (fun r => rfl)
            hinv.table_nodup hmem
        · have heq : applyEvent st (Event.transportMessage m)
              = updateReq { st with table := st.table.erase m.id } m.id
                  (rejectAction (PeerError.remoteError m.errorReason m.errorCode)) := by
            simp [applyEvent, Peer.transportMessageListener, h1, Peer.handleResponse,
              hmem, hok, handlerReject]
          rw [heq]
          exact noCloseInv_removeAndUpdate st hnc m.id _ (fun r => rfl)
            hinv.table_nodup hmem
      · have heq : applyEvent st (Event.transportMessage m)
            = { st with unmatchedResponses := st.unmatchedResponses ++ [m] } := by
          simp [applyEvent, Peer.transportMessageListener, h1, Peer.handleResponse, hmem]
        rw [heq]
        intro k r hget
        exact hnc k r hget
    · by_cases h2 : m.request = true
      · have heq : applyEvent st (Event.transportMessage m)
            = { st with surfacedRequests := st.surfacedRequests ++ [m] } := by
          simp [applyEvent, Peer.transportMessageListener, h1, h2, Peer.handleRequest]
        rw [heq]
        intro k r hget
        exact hnc k r hget
      · have heq : applyEvent st (Event.transportMessage m) = st := by
          simp [applyEvent, Peer.transportMessageListener, h1, h2]
        rw [heq]
        exact hnc
  | timerFire id =>
    by_cases hg : reqTimerArmed st id = true
    · rw [applyEvent_timerFire_of_armed st id hg]
      by_cases hm : id ∈ (updateReq st id (fun r => { r with timerArmed := false })).table
      · have heq : handlerTimerFire st id
            = updateReq { updateReq st id (fun r => { r with timerArmed := false }) with
                table := (updateReq st id
                  (fun r => { r with timerArmed := false })).table.erase id }
                id timeoutAction := by
          simp only [handlerTimerFire]
          rw [if_pos hm]
        rw [heq]
        exact noCloseInv_removeAndUpdate
          (updateReq st id (fun r => { r with timerArmed := false }))
          (noCloseInv_disarm st hnc id) id timeoutAction (fun r => rfl)
          hinv.table_nodup hm
      · have heq : handlerTimerFire st id
            = updateReq st id (fun r => { r with timerArmed := false }) := by
          simp only [handlerTimerFire]
          rw [if_neg hm]
        rw [heq]
        exact noCloseInv_disarm st hnc id
    · have heq : applyEvent st (Event.timerFire id) = st := by simp [applyEvent, hg]
      rw [heq]
      exact hnc
  | acceptInbound m data =>
    have hreqs : (applyEvent st (Event.acceptInbound m data)).reqs = st.reqs := by
      simp only [applyEvent]
      split <;> rfl
    have htab : (applyEvent st (Event.acceptInbound m data)).table = st.table := by
      simp only [applyEvent]
      split <;> rfl
    intro k r hget
    rw [hreqs] at hget
    rcases hnc k r hget with ⟨h1, h2⟩
    refine ⟨?_, h2⟩
    intro hkt
    rw [htab] at hkt
    exact h1 hkt
  | rejectInbound m reason code =>
    have hreqs : (applyEvent st (Event.rejectInbound m reason code)).reqs = st.reqs := by
      simp only [applyEvent]
      split <;> rfl
    have htab : (applyEvent st (Event.rejectInbound m reason code)).table = st.table := by
      simp only [applyEvent]
      split <;> rfl
    intro k r hget
    rw [hreqs] at hget
    rcases hnc k r hget with ⟨h1, h2⟩
    refine ⟨?_, h2⟩
    intro hkt
    rw [htab] at hkt
    exact h1 hkt

theorem noCloseInv_run_of (evs : List Event) (st : PeerState) (hinv : StateInv st)
    (hnc : NoCloseInv st) (hno : Event.close ∉ evs) : NoCloseInv (run st evs) := by
  induction evs generalizing st with
  | nil => exact hnc
  | cons e tl ih =>
    exact ih _ (stateInv_applyEvent st hinv e)
      (noCloseInv_applyEvent st hinv hnc e (Ne.symm (List.ne_of_not_mem_cons hno)))
      (List.not_mem_of_not_mem_cons hno)

theorem promise_settled_stable_step (st : PeerState) (hinv : StateInv st) (e : Event)
    (k : Nat) (r : ReqState) (hget : alistGet st.reqs k = some r)
    (hset : r.promise ≠ PromiseState.pending) :
    ∃ r2, alistGet (applyEvent st e).reqs k = some r2 ∧ r2.promise = r.promise := by
  cases e with
  | send method data =>
    by_cases hk : k = st.nextId
    · rw [hk] at hget
      exact absurd (hinv.keys_lt _ ((mem_keysOf_iff _ _).mpr ⟨r, hget⟩)) (lt_irrefl _)
    · refine ⟨r, ?_, rfl⟩
      exact (alistGet_set_ne st.reqs st.nextId k
        { promise := PromiseState.pending, timerArmed := true,
          settleAttempts := 0 } hk).trans hget
  | close =>
    by_cases hc : st.closed = true
    · refine ⟨r, ?_, rfl⟩
      show alistGet (Peer.close st).reqs k = some r
      rw [Peer.close_of_closed st hc]
      exact hget
    · have hopen : st.closed = false := by simpa using hc
      by_cases hm : k ∈ st.table
      · refine ⟨closeAction r, ?_, ?_⟩
        · show alistGet (Peer.close st).reqs k = some (closeAction r)
          rw [Peer.close_get_mem st hopen k hm hinv.table_nodup, hget]
          rfl
        · simp [closeAction, settleReject_of_settled _ _ hset]
      · refine ⟨r, ?_, rfl⟩
        show alistGet (Peer.close st).reqs k = some r
        rw [Peer.close_get_not_mem st hopen k hm]
        exact hget
  | transportClose =>
    refine ⟨r, ?_, rfl⟩
    show alistGet (Peer.transportCloseListener st).reqs k = some r
    have hreqs : (Peer.transportCloseListener st).reqs = st.reqs := by
      unfold Peer.transportCloseListener
      split <;> rfl
    rw [hreqs]
    exact hget
  | transportMessage m =>
    by_cases h1 : m.response = true
    · by_cases hmem : m.id ∈ st.table
      · by_cases hk : k = m.id
        · by_cases hok : m.ok = true
          · refine ⟨resolveAction m.data r, ?_, ?_⟩
            · show alistGet (Peer.transportMessageListener st m).reqs k
                = some (resolveAction m.data r)
              have heq : Peer.transportMessageListener st m
                  = handlerResolve st m.id m.data := by
                simp [Peer.transportMessageListener, h1, Peer.handleResponse, hmem, hok]
              rw [heq, hk, handlerResolve_get_mem st m.id m.data hmem]
              rw [hk] at hget
              rw [hget]
              rfl
            · simp [resolveAction, settleResolve_of_settled _ _ hset]
          · refine ⟨rejectAction (PeerError.remoteError m.errorReason m.errorCode) r,
              ?_, ?_⟩
            · show alistGet (Peer.transportMessageListener st m).reqs k = some _
              have heq : Peer.transportMessageListener st m
                  = handlerReject st m.id
                      (PeerError.remoteError m.errorReason m.errorCode) := by
                simp [Peer.transportMessageListener, h1, Peer.handleResponse, hmem, hok]
              rw [heq, hk, handlerReject_get_mem st m.id _ hmem]
              rw [hk] at hget
              rw [hget]
              rfl
            · simp [rejectAction, settleReject_of_settled _ _ hset]
        · refine ⟨r, ?_, rfl⟩
          show alistGet (Peer.transportMessageListener st m).reqs k = some r
          by_cases hok : m.ok = true
          · have heq : Peer.transportMessageListener st m
                = handlerResolve st m.id m.data := by
              simp [Peer.transportMessageListener, h1, Peer.handleResponse, hmem, hok]
            rw [heq, handlerResolve_get_ne st m.id k m.data hk]
            exact hget
          · have heq : Peer.transportMessageListener st m
                = handlerReject st m.id
                    (PeerError.remoteError m.errorReason m.errorCode) := by
              simp [Peer.transportMessageListener, h1, Peer.handleResponse, hmem, hok]
            rw [heq, handlerReject_get_ne st m.id k _ hk]
            exact hget
      · refine ⟨r, ?_, rfl⟩
        show alistGet (Peer.transportMessageListener st m).reqs k = some r
        rw [unmatched_response_noop st m h1 hmem]
        exact hget
    · by_cases h2 : m.request = true
      · refine ⟨r, ?_, rfl⟩
        show alistGet (Peer.transportMessageListener st m).reqs k = some r
        have heq : Peer.transportMessageListener st m = Peer.handleRequest st m := by
          simp [Peer.transportMessageListener, h1, h2]
        rw [heq]
        exact hget
      · refine ⟨r, ?_, rfl⟩
        show alistGet (Peer.transportMessageListener st m).reqs k = some r
        have heq : Peer.transportMessageListener st m = st := by
          simp [Peer.transportMessageListener, h1, h2]
        rw [heq]
        exact hget
  | timerFire id =>
    by_cases hg : reqTimerArmed st id = true
    · rw [applyEvent_timerFire_of_armed st id hg]
      by_cases hk : k = id
      · have harm : r.timerArmed = true := by
          unfold reqTimerArmed at hg
          rw [← hk, hget] at hg
          exact hg
        exact absurd (hinv.armed_pending k r hget harm).1 hset
      · refine ⟨r, ?_, rfl⟩
        rw [handlerTimerFire_get_ne st id k hk]
        exact hget
    · have heq : applyEvent st (Event.timerFire id) = st := by simp [applyEvent, hg]
      rw [heq]
      exact ⟨r, hget, rfl⟩
  | acceptInbound m data =>
    have hreqs : (applyEvent st (Event.acceptInbound m data)).reqs = st.reqs := by
      simp only [applyEvent]
      split <;> rfl
    rw [hreqs]
    exact ⟨r, hget, rfl⟩
  | rejectInbound m reason code =>
    have hreqs : (applyEvent st (Event.rejectInbound m reason code)).reqs = st.reqs := by
      simp only [applyEvent]
      split <;> rfl
    rw [hreqs]
    exact ⟨r, hget, rfl⟩

theorem promise_stable_run_of (tail : List Event) (st : PeerState) (hinv : StateInv st)
    (k : Nat) (p : PromiseState) (hp : promiseOf st k = some p)
    (hset : p ≠ PromiseState.pending) :
    promiseOf (run st tail) k = some p := by
  induction tail generalizing st with
  | nil => exact hp
  | cons e tl ih =>
    have hex : ∃ r, alistGet st.reqs k = some r ∧ r.promise = p := by
      unfold promiseOf at hp
      cases hc : alistGet st.reqs k with
      | none => rw [hc] at hp; cases hp
      | some r =>
        rw [hc] at hp
        exact ⟨r, rfl, by injection hp⟩
    obtain ⟨r, hr, hrp⟩ := hex
    have hrset : r.promise ≠ PromiseState.pending := by
      rw [hrp]
      exact hset
    obtain ⟨r2, hr2, hr2p⟩ := promise_settled_stable_step st hinv e k r hr hrset
    have hp2 : promiseOf (applyEvent st e) k = some p := by
      unfold promiseOf
      rw [hr2]
      simp only [Option.map_some']
      rw [hr2p, hrp]
    exact ih _ (stateInv_applyEvent st hinv e) hp2

/-- C2 (amended): each request future settles at most once, and the removal
gate is the fire-once mechanism only for the resolve, reject and timeout
actions: in any run that never calls `close()`, at most one settlement call
fires per request. The close action is ungated and does not remove the
entry, so a close followed by a matching response issues a second
settlement call (see the counterexample); the future nevertheless keeps its
first settlement, because a settled promise is never changed by any later
event (first settlement wins). -/
theorem c2_settle_once_amended (evs tail : List Event) (k : Nat) (p : PromiseState) :
    (Event.close ∉ evs → reqSettleAttempts (run initPeer evs) k ≤ 1)
    ∧ (promiseOf (run initPeer evs) k = some p → p ≠ PromiseState.pending →
        promiseOf (run initPeer (evs ++ tail)) k = some p) := by
  constructor
  · intro hno
    have hnc := noCloseInv_run_of evs initPeer stateInv_init noCloseInv_init hno
    unfold reqSettleAttempts
    cases hc : alistGet (run initPeer evs).reqs k with
    | none => exact Nat.zero_le 1
    | some r => exact (hnc k r hc).2
  · intro hp hset
    rw [show run initPeer (evs ++ tail) = run (run initPeer evs) tail from by
      simp [run, List.foldl_append]]
    exact promise_stable_run_of tail (run initPeer evs) (stateInv_run evs) k p hp hset

/-- C2 amended, evaluated: a close-free run in which request 0 settles by
timeout fired exactly one settlement call, and delivering a late matching
response afterwards leaves the settled rejection unchanged. -/
theorem c2_settle_once_amended_witness :
    (Event.close ∉ c2WitnessTrace
      ∧ reqSettleAttempts (run initPeer c2WitnessTrace) 0 ≤ 1)
    ∧ (promiseOf (run initPeer c2WitnessTrace) 0
          = some (PromiseState.rejected PeerError.requestTimeout)
      ∧ PromiseState.rejected PeerError.requestTimeout ≠ PromiseState.pending
      ∧ promiseOf (run initPeer (c2WitnessTrace ++ c2WitnessTail)) 0
          = some (PromiseState.rejected PeerError.requestTimeout)) :=
  ⟨⟨by decide, (c2_settle_once_amended c2WitnessTrace c2WitnessTail 0
      (PromiseState.rejected PeerError.requestTimeout)).1 (by decide)⟩,
   ⟨by decide, by decide, (c2_settle_once_amended c2WitnessTrace c2WitnessTail 0
      (PromiseState.rejected PeerError.requestTimeout)).2 (by decide) (by decide)⟩⟩
